import Mathlib

/-!
Formal model of the test harness in
yukihiko-shinoda/docker-compose-pytest-playwright-staticpress2019.

The development shallowly embeds the pure logic of the Python test
libraries:

* `RoutineOperation.escape_xpath_string` (testlibraries/routine_operation.py)
  as a function on lists of characters, together with an evaluator for the
  XPath 1.0 fragment `concat(literal, ..., literal)` used to give the
  escaped expression a meaning;
* `TableCleaner.clean` and `FixtureLoader.load`
  (testlibraries/table_cleaner.py, testlibraries/fixture_loader.py) as
  transformations on an explicit model of the `wp_options` table, with the
  MySQL `INSERT ... ON DUPLICATE KEY UPDATE` statement modelled as an
  upsert keyed on `option_name`;
* the re-authentication retry loop of `test_sets_option_and_rebuilds`
  (tests/test_all.py) as a recursive function over an oracle giving the
  page URL observed at each pass;
* `PagePlugins.activate_plugin` (testlibraries/pages/page_plugins.py) as a
  function from a locator-count environment to the list of browser actions
  it performs.
-/

namespace StaticPressHarness

/-! ## RoutineOperation.escape_xpath_string -/

/-- The replacement applied to each character by
`text.replace("'", "', \"'\", '")` in `escape_xpath_string`:
a single quote becomes the nine characters `', "'", '`, every other
character is kept. Python `str.replace` with a one-character pattern is
exactly this character-wise expansion. -/
def replQuote (c : Char) : List Char :=
  if c = '\'' then "', \"'\", '".data else [c]

/-- Model of `RoutineOperation.escape_xpath_string` from
testlibraries/routine_operation.py, on lists of characters:
`splited_quotes = text.replace("'", "', \"'\", '")` followed by
`f"concat('{splited_quotes}', '')"`. -/
def escape_xpath_string (text : List Char) : List Char :=
  "concat('".data ++ text.flatMap replQuote ++ "', '')".data

/-- String-typed wrapper of `escape_xpath_string`, matching the Python
signature `str -> str`. -/
def escapeXpathStr (text : String) : String :=
  ⟨escape_xpath_string text.data⟩

/-! ## An evaluator for the XPath fragment `concat(lit, ..., lit)`

XPath 1.0 string literals are `'...'` (no single quote inside) or `"..."`
(no double quote inside), each denoting its inner characters, and
`concat(e1, ..., en)` denotes the concatenation of its arguments.  The
evaluator below parses exactly that fragment (with the comma-space
argument separators that the harness emits) and returns the denoted
string; any input outside the fragment yields `none`. -/

/-- Parser state while scanning the arguments of `concat(...)`:
inside a single-quoted literal, inside a double-quoted literal,
just after a literal (expecting `,` or the closing `)`), or
expecting the next argument (skipping spaces, then an opening quote). -/
inductive ConcatState
  | inSingle
  | inDouble
  | afterLit
  | expectArg
  deriving DecidableEq, Repr

open ConcatState in
/-- Scan the character stream after `concat(`, accumulating the denoted
string; `some acc` exactly when the stream is a well-formed
comma-separated list of XPath string literals closed by `)` at the very
end of the input. -/
def evalConcatArgs (acc : List Char) (st : ConcatState) : List Char → Option (List Char)
  | [] => none
  | c :: cs =>
    match st with
    | inSingle =>
      if c = '\'' then evalConcatArgs acc afterLit cs
      else evalConcatArgs (acc ++ [c]) inSingle cs
    | inDouble =>
      if c = '"' then evalConcatArgs acc afterLit cs
      else evalConcatArgs (acc ++ [c]) inDouble cs
    | afterLit =>
      if c = ')' then (if cs = [] then some acc else none)
      else if c = ',' then evalConcatArgs acc expectArg cs
      else none
    | expectArg =>
      if c = ' ' then evalConcatArgs acc expectArg cs
      else if c = '\'' then evalConcatArgs acc inSingle cs
      else if c = '"' then evalConcatArgs acc inDouble cs
      else none

/-- Evaluate an XPath expression of the shape `concat(lit, ..., lit)`
under XPath 1.0 string-literal and `concat()` semantics: returns the
string the expression denotes, or `none` when the input is not of that
shape. -/
def xpathEvalConcat (e : List Char) : Option (List Char) :=
  match e with
  | 'c' :: 'o' :: 'n' :: 'c' :: 'a' :: 't' :: '(' :: rest =>
    evalConcatArgs [] ConcatState.expectArg rest
  | _ => none

/-- Key lemma: scanning the expansion of `s` while inside a single-quoted
literal, followed by the closing `', '')` tail, denotes `acc ++ s`. -/
theorem evalConcatArgs_replQuote (s : List Char) : ∀ acc : List Char,
    evalConcatArgs acc ConcatState.inSingle
      (s.flatMap replQuote ++ ('\'' :: ", '')".data)) = some (acc ++ s) := by
  induction s with
  | nil =>
    intro acc
    simp [evalConcatArgs]
  | cons c t ih =>
    intro acc
    by_cases hc : c = '\''
    · subst hc
      have h9 : (('\'' :: t).flatMap replQuote ++ ('\'' :: ", '')".data))
          = '\'' :: ',' :: ' ' :: '"' :: '\'' :: '"' :: ',' :: ' ' :: '\''
              :: (t.flatMap replQuote ++ ('\'' :: ", '')".data)) := by
        simp [replQuote]
      rw [h9]
      simp only [evalConcatArgs]
      norm_num
      rw [ih (acc ++ ['\''])]
      simp
    · have h1 : ((c :: t).flatMap replQuote ++ ('\'' :: ", '')".data))
          = c :: (t.flatMap replQuote ++ ('\'' :: ", '')".data)) := by
        simp [replQuote, hc]
      rw [h1]
      simp only [evalConcatArgs, if_neg hc]
      rw [ih (acc ++ [c])]
      simp

/-- The round-trip fact, shared by several theorems below: the escaped
expression evaluates back to the original string. -/
theorem xpathEvalConcat_escape (s : List Char) :
    xpathEvalConcat (escape_xpath_string s) = some s := by
  have hpre : escape_xpath_string s
      = 'c' :: 'o' :: 'n' :: 'c' :: 'a' :: 't' :: '('
          :: ('\'' :: (s.flatMap replQuote ++ ('\'' :: ", '')".data))) := by
    simp [escape_xpath_string]
  rw [hpre]
  simp only [xpathEvalConcat, evalConcatArgs]
  norm_num
  simpa using evalConcatArgs_replQuote s []

/-- C1: for every input string `s`, the expression returned by
`RoutineOperation.escape_xpath_string(s)`, evaluated under XPath 1.0
string-literal and `concat()` semantics, denotes exactly `s`; the
round-trip holds for every string, in particular for strings containing
single quotes, double quotes, or both, so escaping never changes the text
being matched. -/
theorem escape_xpath_string_roundtrip (s : List Char) :
    xpathEvalConcat (escape_xpath_string s) = some s :=
  xpathEvalConcat_escape s

example : escapeXpathStr "It's" = "concat('It', \"'\", 's', '')" := by decide
example : escapeXpathStr "" = "concat('', '')" := by decide
example : xpathEvalConcat "concat('It', \"'\", 's', '')".data = some "It's".data := by decide
example :
    escapeXpathStr "He said \"It's fine\""
      = "concat('He said \"It', \"'\", 's fine\"', '')" := by decide

/-! ## C2: the split-and-join description of `escape_xpath_string`

The spec describes the function as: split at every single quote, join the
pieces with the separator `', "'", '` and wrap as `concat('...', '')`.
The definitions below follow those words and are compared against
`escape_xpath_string`. -/

/-- Split a character list at every single quote; the quotes are dropped
and `n` quotes yield `n + 1` pieces (Python `str.split("'")`). -/
def splitQuotes : List Char → List (List Char)
  | [] => [[]]
  | c :: t =>
    if c = '\'' then [] :: splitQuotes t
    else
      match splitQuotes t with
      | [] => [[c]]
      | h :: r => (c :: h) :: r

/-- Join pieces with a separator between consecutive pieces
(Python `sep.join(pieces)`). -/
def joinSep (sep : List Char) : List (List Char) → List Char
  | [] => []
  | [x] => x
  | x :: y :: r => x ++ sep ++ joinSep sep (y :: r)

/-- Modelled from the spec claim's words: split at every single quote,
join with the separator `', "'", '`, wrap as `concat('...', '')`. -/
def spec_escape (text : List Char) : List Char :=
  "concat('".data ++ joinSep "', \"'\", '".data (splitQuotes text) ++ "', '')".data

theorem splitQuotes_ne_nil (s : List Char) : splitQuotes s ≠ [] := by
  cases s with
  | nil => simp [splitQuotes]
  | cons c t =>
    simp only [splitQuotes]
    by_cases hc : c = '\''
    · simp [hc]
    · simp only [if_neg hc]
      cases splitQuotes t <;> simp

theorem joinSep_splitQuotes (s : List Char) :
    joinSep "', \"'\", '".data (splitQuotes s) = s.flatMap replQuote := by
  induction s with
  | nil => simp [splitQuotes, joinSep]
  | cons c t ih =>
    by_cases hc : c = '\''
    · subst hc
      have h1 : splitQuotes ('\'' :: t) = [] :: splitQuotes t := by
        simp [splitQuotes]
      rw [h1]
      obtain ⟨h, r, hr⟩ : ∃ h r, splitQuotes t = h :: r := by
        cases hsplit : splitQuotes t with
        | nil => exact absurd hsplit (splitQuotes_ne_nil t)
        | cons h r => exact ⟨h, r, rfl⟩
      rw [hr]
      rw [hr] at ih
      simp only [joinSep, List.nil_append]
      rw [ih]
      simp [replQuote]
    · have h1 : splitQuotes (c :: t) =
          match splitQuotes t with
          | [] => [[c]]
          | h :: r => (c :: h) :: r := by
        simp [splitQuotes, hc]
      obtain ⟨h, r, hr⟩ : ∃ h r, splitQuotes t = h :: r := by
        cases hsplit : splitQuotes t with
        | nil => exact absurd hsplit (splitQuotes_ne_nil t)
        | cons h r => exact ⟨h, r, rfl⟩
      rw [hr] at h1
      rw [h1]
      rw [hr] at ih
      have h2 : ((c :: t).flatMap replQuote : List Char)
          = c :: t.flatMap replQuote := by
        simp [replQuote, hc]
      rw [h2, ← ih]
      cases r with
      | nil => simp [joinSep]
      | cons y r2 => simp [joinSep]

/-- C2: `escape_xpath_string` equals the split-and-join description from
the spec, and on the concrete inputs the empty string and `It's` it
produces `concat('', '')` and `concat('It', "'", 's', '')`. -/
theorem escape_xpath_string_split_join :
    (∀ s : List Char, escape_xpath_string s = spec_escape s)
      ∧ escapeXpathStr "" = "concat('', '')"
      ∧ escapeXpathStr "It's" = "concat('It', \"'\", 's', '')" := by
  refine ⟨fun s => ?_, by decide, by decide⟩
  simp [escape_xpath_string, spec_escape]
  exact (joinSep_splitQuotes s).symm

/-! ## C8: syntactic shape of the escaped expression

A grammar for the argument list of the expressions `escape_xpath_string`
emits: a sequence of segments separated by comma-space, where each
segment is either a single-quoted literal containing no single quote or
exactly the double-quoted literal `"'"`, and the final segment is the
empty single-quoted literal `''` followed by the closing parenthesis. -/

/-- Predicate `ShapeArgs body` holds when `body` (the text after `concat(`) is a
comma-space separated list of segments, every single-quoted segment free
of single quotes, every other segment exactly `"'"`, ending with the
segment `''` and the closing `)`. -/
inductive ShapeArgs : List Char → Prop
  | last : ShapeArgs "'')".data
  | singleSeg (content rest : List Char) :
      '\'' ∉ content → ShapeArgs rest →
      ShapeArgs ('\'' :: content ++ ('\'' :: ',' :: ' ' :: rest))
  | dquoteSeg (rest : List Char) :
      ShapeArgs rest →
      ShapeArgs ('"' :: '\'' :: '"' :: ',' :: ' ' :: rest)

/-- A well-formed XPath 1.0 string expression of the shape
`concat(seg_1, ..., seg_n, '')` as described by `ShapeArgs`. -/
def XPathConcatShape (out : List Char) : Prop :=
  ∃ body, out = "concat(".data ++ body ∧ ShapeArgs body

/-- Generalized shape lemma: with `pre` already emitted inside the
current single-quoted segment, the expansion of `s` followed by the
closing `', '')` tail satisfies the grammar. -/
theorem shapeArgs_replQuote (s : List Char) : ∀ pre : List Char, '\'' ∉ pre →
    ShapeArgs ('\'' :: pre ++ (s.flatMap replQuote ++ "', '')".data)) := by
  induction s with
  | nil =>
    intro pre hpre
    have h1 : ('\'' :: pre ++ ([].flatMap replQuote ++ "', '')".data) : List Char)
        = '\'' :: pre ++ ('\'' :: ',' :: ' ' :: "'')".data) := by
      simp
    rw [h1]
    exact ShapeArgs.singleSeg pre _ hpre ShapeArgs.last
  | cons c t ih =>
    intro pre hpre
    by_cases hc : c = '\''
    · subst hc
      have h1 : ('\'' :: pre ++ (('\'' :: t).flatMap replQuote ++ "', '')".data) : List Char)
          = '\'' :: pre ++ ('\'' :: ',' :: ' '
              :: ('"' :: '\'' :: '"' :: ',' :: ' '
                :: ('\'' :: [] ++ (t.flatMap replQuote ++ "', '')".data)))) := by
        simp [replQuote]
      rw [h1]
      exact ShapeArgs.singleSeg pre _ hpre
        (ShapeArgs.dquoteSeg _ (ih [] (by simp)))
    · have h1 : ('\'' :: pre ++ ((c :: t).flatMap replQuote ++ "', '')".data) : List Char)
          = '\'' :: (pre ++ [c]) ++ (t.flatMap replQuote ++ "', '')".data) := by
        simp [replQuote, hc]
      rw [h1]
      exact ih (pre ++ [c]) (by simp [hpre, Ne.symm hc])

/-- Selector built by `RoutineOperation.click_by_text`:
`f"xpath=.//{tag}[contains(text(), {escaped_text})]"`. -/
def click_by_text_selector (tag text : List Char) : List Char :=
  "xpath=.//".data ++ tag ++ "[contains(text(), ".data
    ++ escape_xpath_string text ++ ")]".data

/-- XPath built by `PageAdmin._get_link_handler_menu`:
`f'//div[@class="wp-menu-name" and contains(text(), {escaped_menu})]'`. -/
def link_handler_menu_xpath (menu : List Char) : List Char :=
  "//div[@class=\"wp-menu-name\" and contains(text(), ".data
    ++ escape_xpath_string menu ++ ")]".data

/-- C8: for every input string, the output of
`RoutineOperation.escape_xpath_string` is a well-formed XPath 1.0 string
expression of the shape `concat(seg_1, ..., seg_n, '')` in which every
single-quoted segment contains no single quote and every other segment is
exactly `"'"`; consequently the escaped text stays in string-literal
position (it still denotes exactly the input) inside the selectors built
by `click_by_text` and the `PageAdmin` locator helper. -/
theorem escape_xpath_string_well_formed (s : List Char) :
    XPathConcatShape (escape_xpath_string s)
      ∧ xpathEvalConcat (escape_xpath_string s) = some s
      ∧ (∀ tag, ∃ e, click_by_text_selector tag s
            = "xpath=.//".data ++ tag ++ "[contains(text(), ".data ++ e ++ ")]".data
            ∧ XPathConcatShape e ∧ xpathEvalConcat e = some s)
      ∧ (∃ e, link_handler_menu_xpath s
            = "//div[@class=\"wp-menu-name\" and contains(text(), ".data ++ e ++ ")]".data
            ∧ XPathConcatShape e ∧ xpathEvalConcat e = some s) := by
  have hshape : XPathConcatShape (escape_xpath_string s) := by
    refine ⟨'\'' :: (s.flatMap replQuote ++ "', '')".data), ?_, ?_⟩
    · simp [escape_xpath_string]
    · exact shapeArgs_replQuote s [] (by simp)
  refine ⟨hshape, xpathEvalConcat_escape s, ?_, ?_⟩
  · intro tag
    exact ⟨escape_xpath_string s, rfl, hshape, xpathEvalConcat_escape s⟩
  · exact ⟨escape_xpath_string s, rfl, hshape, xpathEvalConcat_escape s⟩

/-! ## The `wp_options` table model

A table state is a list of rows; a row carries the three columns the
harness's SQL reads or writes (`option_name`, `option_value`,
`autoload`).  The `option_name` column has a unique index, so the MySQL
statement `INSERT ... ON DUPLICATE KEY UPDATE option_value =
VALUES(option_value), autoload = VALUES(autoload)` behaves as an upsert
keyed on `option_name`: it updates the matching row when one exists and
appends a fresh row otherwise. -/

/-- A row of `wp_options` with the columns touched by the harness
(testlibraries/entities/wp_option.py). -/
structure WpOption where
  option_name : String
  option_value : String
  autoload : String
  deriving DecidableEq, Repr

/-- The row deletion of one `DELETE FROM wp_options WHERE option_name =
...` statement. -/
def deleteByName (name : String) (t : List WpOption) : List WpOption :=
  t.filter (fun r => !(r.option_name == name))

/-- Model of `TableCleaner.clean` from testlibraries/table_cleaner.py: three
`DELETE` statements, for `StaticPress::static url`,
`StaticPress::static dir` and `StaticPress::timeout` in that order. -/
def clean (t : List WpOption) : List WpOption :=
  deleteByName "StaticPress::timeout"
    (deleteByName "StaticPress::static dir"
      (deleteByName "StaticPress::static url" t))

/-- One `INSERT ... ON DUPLICATE KEY UPDATE` against the unique
`option_name` index: update the row carrying `name` when present,
append a fresh row otherwise. -/
def upsert (name value autoload : String) (t : List WpOption) : List WpOption :=
  if t.any (fun r => r.option_name == name) then
    t.map (fun r => if r.option_name == name then ⟨name, value, autoload⟩ else r)
  else t ++ [⟨name, value, autoload⟩]

/-- List-of-characters analogue of Python's `pat in s` membership test:
`startsWith pat s` is true when `pat` is an initial segment of `s`. -/
def startsWith : List Char → List Char → Bool
  | [], _ => true
  | _ :: _, [] => false
  | a :: as, b :: bs => a == b && startsWith as bs

/-- Test `containsSeq pat s` is Python's `pat in s`: `pat` occurs contiguously
somewhere in `s`. -/
def containsSeq (pat : List Char) : List Char → Bool
  | [] => startsWith pat []
  | c :: rest => startsWith pat (c :: rest) || containsSeq pat rest

/-- String membership test, Python's `pat in s`. -/
def strContains (s pat : String) : Bool :=
  containsSeq pat.data s.data

/-- Python's `str.lower()` on the characters of the string (ASCII
letters are lowered; the fixture patterns involved are pure ASCII). -/
def lowerStr (s : String) : String :=
  ⟨s.data.map Char.toLower⟩

/-- The guard of `FixtureLoader.load`:
`"WpOptionsStaticPress2019" in fixtures_path or
"wp_options_staticpress2019" in fixtures_path.lower()`. -/
def fixtureRecognized (fixtures_path : String) : Bool :=
  strContains fixtures_path "WpOptionsStaticPress2019"
    || strContains (lowerStr fixtures_path) "wp_options_staticpress2019"

/-- Model of `FixtureLoader.load` from testlibraries/fixture_loader.py: when the
fixtures path is recognized, upsert the three hardcoded StaticPress
options (static url, then static dir, then timeout); otherwise do
nothing. -/
def load (fixtures_path : String) (t : List WpOption) : List WpOption :=
  if fixtureRecognized fixtures_path then
    upsert "StaticPress::timeout" "20" "yes"
      (upsert "StaticPress::static dir" "/var/www/html/wp-content/staticpress/" "yes"
        (upsert "StaticPress::static url" "http://example.org/sub/" "yes" t))
  else t

/-- The three option names seeded by the fixture and deleted by the
cleaner. -/
def isSeededName (n : String) : Bool :=
  n == "StaticPress::static url" || n == "StaticPress::static dir"
    || n == "StaticPress::timeout"

/-- Rows the cleaner leaves alone. -/
def notSeeded (r : WpOption) : Bool :=
  !(isSeededName r.option_name)

theorem clean_eq_filter (t : List WpOption) :
    clean t = t.filter notSeeded := by
  simp only [clean, deleteByName, List.filter_filter]
  apply List.filter_congr
  intro r _
  simp only [notSeeded, isSeededName]
  cases h1 : r.option_name == "StaticPress::static url"
    <;> cases h2 : r.option_name == "StaticPress::static dir"
    <;> cases h3 : r.option_name == "StaticPress::timeout"
    <;> simp [h1, h2, h3]

theorem filter_notSeeded_map_update (n v a : String) (hn : isSeededName n = true)
    (t : List WpOption) :
    (t.map (fun r => if r.option_name == n then (⟨n, v, a⟩ : WpOption) else r)).filter notSeeded
      = t.filter notSeeded := by
  induction t with
  | nil => simp
  | cons r t ih =>
    rw [List.map_cons]
    by_cases hr : (r.option_name == n) = true
    · have hrn : r.option_name = n := by simpa using hr
      have h1 : notSeeded (⟨n, v, a⟩ : WpOption) = false := by
        simp [notSeeded, hn]
      have h2 : notSeeded r = false := by
        simp [notSeeded, hrn, hn]
      rw [if_pos hr, List.filter_cons, List.filter_cons, h1, h2]
      simp only [Bool.false_eq_true, if_false]
      exact ih
    · rw [if_neg hr, List.filter_cons, List.filter_cons]
      cases hns : notSeeded r
      · simp only [Bool.false_eq_true, if_false]
        exact ih
      · simp only [if_pos rfl]
        rw [ih]

theorem filter_notSeeded_upsert (n v a : String) (hn : isSeededName n = true)
    (t : List WpOption) :
    (upsert n v a t).filter notSeeded = t.filter notSeeded := by
  unfold upsert
  by_cases hany : t.any (fun r => r.option_name == n)
  · rw [if_pos hany]
    exact filter_notSeeded_map_update n v a hn t
  · rw [if_neg hany]
    have h1 : notSeeded (⟨n, v, a⟩ : WpOption) = false := by
      simp [notSeeded, hn]
    simp [List.filter_append, h1]

theorem clean_upsert (n v a : String) (hn : isSeededName n = true)
    (t : List WpOption) :
    clean (upsert n v a t) = clean t := by
  rw [clean_eq_filter, clean_eq_filter]
  exact filter_notSeeded_upsert n v a hn t

theorem clean_load (p : String) (t : List WpOption)
    (hp : fixtureRecognized p = true) :
    clean (load p t) = clean t := by
  unfold load
  rw [if_pos hp]
  rw [clean_upsert _ _ _ (by decide), clean_upsert _ _ _ (by decide),
    clean_upsert _ _ _ (by decide)]

/-- C4: `TableCleaner.clean` deletes exactly the rows named
`StaticPress::static url`, `StaticPress::static dir` or
`StaticPress::timeout`: the result is the input with precisely those rows
removed (so every row with any other `option_name` is untouched, in
place and in order), and no seeded name survives cleaning. -/
theorem clean_deletes_exactly_seeded (t : List WpOption) :
    clean t = t.filter (fun r => !(isSeededName r.option_name))
      ∧ ∀ r ∈ clean t, isSeededName r.option_name = false := by
  constructor
  · exact clean_eq_filter t
  · intro r hr
    rw [clean_eq_filter] at hr
    have := List.of_mem_filter hr
    simpa [notSeeded] using this

/-- C3: for every starting `wp_options` state and every fixtures path
recognized by `FixtureLoader.load`, cleaning after loading yields exactly
the state cleaning alone yields: the three seeded StaticPress options are
absent afterwards and every other row is exactly as `clean` alone leaves
it. -/
theorem clean_after_load_eq_clean (p : String) (t : List WpOption)
    (hp : fixtureRecognized p = true) :
    clean (load p t) = clean t
      ∧ ∀ r ∈ clean (load p t), isSeededName r.option_name = false := by
  refine ⟨clean_load p t hp, ?_⟩
  intro r hr
  rw [clean_eq_filter] at hr
  have := List.of_mem_filter hr
  simpa [notSeeded] using this

/-- Witness for C3 at a concrete recognized path and concrete table. -/
theorem clean_after_load_eq_clean_witness :
    fixtureRecognized "fixtures/WpOptionsStaticPress2019.yml" = true
      ∧ (clean (load "fixtures/WpOptionsStaticPress2019.yml"
            [⟨"siteurl", "http://localhost", "yes"⟩,
             ⟨"StaticPress::timeout", "5", "no"⟩])
          = clean [⟨"siteurl", "http://localhost", "yes"⟩,
             ⟨"StaticPress::timeout", "5", "no"⟩]
        ∧ ∀ r ∈ clean (load "fixtures/WpOptionsStaticPress2019.yml"
            [⟨"siteurl", "http://localhost", "yes"⟩,
             ⟨"StaticPress::timeout", "5", "no"⟩]),
            isSeededName r.option_name = false) :=
  ⟨by decide,
    clean_after_load_eq_clean "fixtures/WpOptionsStaticPress2019.yml"
      [⟨"siteurl", "http://localhost", "yes"⟩,
       ⟨"StaticPress::timeout", "5", "no"⟩] (by decide)⟩

theorem upsert_mem (n v a : String) (t : List WpOption) :
    (⟨n, v, a⟩ : WpOption) ∈ upsert n v a t := by
  unfold upsert
  by_cases hany : t.any (fun r => r.option_name == n)
  · rw [if_pos hany]
    obtain ⟨r, hr, hrn⟩ := List.any_eq_true.mp hany
    refine List.mem_map.mpr ⟨r, hr, ?_⟩
    rw [if_pos hrn]
  · rw [if_neg hany]
    simp

theorem upsert_name_eq (n v a : String) (t : List WpOption) :
    ∀ r ∈ upsert n v a t, r.option_name = n → r = ⟨n, v, a⟩ := by
  unfold upsert
  by_cases hany : t.any (fun r => r.option_name == n)
  · rw [if_pos hany]
    intro r hr hrn
    obtain ⟨r0, _, hr0⟩ := List.mem_map.mp hr
    by_cases h0 : (r0.option_name == n) = true
    · rw [if_pos h0] at hr0
      exact hr0.symm
    · rw [if_neg h0] at hr0
      subst hr0
      exact absurd (beq_iff_eq.mpr hrn) h0
  · rw [if_neg hany]
    intro r hr hrn
    rcases List.mem_append.mp hr with hmem | hmem
    · exfalso
      apply hany
      exact List.any_eq_true.mpr ⟨r, hmem, beq_iff_eq.mpr hrn⟩
    · simpa using hmem

theorem upsert_mem_preserve (n v a : String) (t : List WpOption)
    (r : WpOption) (hr : r ∈ t) (hne : r.option_name ≠ n) :
    r ∈ upsert n v a t := by
  unfold upsert
  by_cases hany : t.any (fun x => x.option_name == n)
  · rw [if_pos hany]
    refine List.mem_map.mpr ⟨r, hr, ?_⟩
    rw [if_neg (by simpa using hne)]
  · rw [if_neg hany]
    exact List.mem_append.mpr (Or.inl hr)

theorem upsert_mem_of_ne (n v a : String) (t : List WpOption)
    (r : WpOption) (hr : r ∈ upsert n v a t) (hne : r.option_name ≠ n) :
    r ∈ t := by
  unfold upsert at hr
  by_cases hany : t.any (fun x => x.option_name == n)
  · rw [if_pos hany] at hr
    obtain ⟨r0, hr0, heq⟩ := List.mem_map.mp hr
    by_cases h0 : (r0.option_name == n) = true
    · rw [if_pos h0] at heq
      subst heq
      simp at hne
    · rw [if_neg h0] at heq
      subst heq
      exact hr0
  · rw [if_neg hany] at hr
    rcases List.mem_append.mp hr with hmem | hmem
    · exact hmem
    · exfalso
      apply hne
      have : r = (⟨n, v, a⟩ : WpOption) := by simpa using hmem
      rw [this]

/-- The row seeded for `StaticPress::static url`. -/
def seededUrlRow : WpOption := ⟨"StaticPress::static url", "http://example.org/sub/", "yes"⟩

/-- The row seeded for `StaticPress::static dir`. -/
def seededDirRow : WpOption :=
  ⟨"StaticPress::static dir", "/var/www/html/wp-content/staticpress/", "yes"⟩

/-- The row seeded for `StaticPress::timeout`. -/
def seededTimeoutRow : WpOption := ⟨"StaticPress::timeout", "20", "yes"⟩

/-- C5: for every recognized fixtures path (containing
`WpOptionsStaticPress2019`, or `wp_options_staticpress2019` after
lowercasing) and every starting state with unique option names,
`FixtureLoader.load` leaves the table containing exactly the three seeded
rows for the three StaticPress names — overwriting any pre-existing rows
with those names — and leaves every other row unchanged. -/
theorem load_seeds_exactly (p : String) (t : List WpOption)
    (hp : fixtureRecognized p = true)
    (_ : (t.map WpOption.option_name).Nodup) :
    (seededUrlRow ∈ load p t ∧ seededDirRow ∈ load p t ∧ seededTimeoutRow ∈ load p t)
      ∧ (∀ r ∈ load p t, r.option_name = "StaticPress::static url" → r = seededUrlRow)
      ∧ (∀ r ∈ load p t, r.option_name = "StaticPress::static dir" → r = seededDirRow)
      ∧ (∀ r ∈ load p t, r.option_name = "StaticPress::timeout" → r = seededTimeoutRow)
      ∧ (load p t).filter notSeeded = t.filter notSeeded := by
  unfold load
  rw [if_pos hp]
  set t1 := upsert "StaticPress::static url" "http://example.org/sub/" "yes" t with ht1
  set t2 := upsert "StaticPress::static dir" "/var/www/html/wp-content/staticpress/" "yes" t1
    with ht2
  refine ⟨⟨?_, ?_, ?_⟩, ?_, ?_, ?_, ?_⟩
  · apply upsert_mem_preserve _ _ _ _ _ _ (by decide)
    apply upsert_mem_preserve _ _ _ _ _ _ (by decide)
    exact upsert_mem _ _ _ t
  · apply upsert_mem_preserve _ _ _ _ _ _ (by decide)
    exact upsert_mem _ _ _ t1
  · exact upsert_mem _ _ _ t2
  · intro r hr hrn
    have h2 : r ∈ t2 := upsert_mem_of_ne _ _ _ _ _ hr (by rw [hrn]; decide)
    have h1 : r ∈ t1 := upsert_mem_of_ne _ _ _ _ _ h2 (by rw [hrn]; decide)
    exact upsert_name_eq _ _ _ t r h1 hrn
  · intro r hr hrn
    have h2 : r ∈ t2 := upsert_mem_of_ne _ _ _ _ _ hr (by rw [hrn]; decide)
    exact upsert_name_eq _ _ _ t1 r h2 hrn
  · intro r hr hrn
    exact upsert_name_eq _ _ _ t2 r hr hrn
  · rw [filter_notSeeded_upsert _ _ _ (by decide),
      filter_notSeeded_upsert _ _ _ (by decide),
      filter_notSeeded_upsert _ _ _ (by decide)]

/-- Witness for C5 at a concrete recognized path against the empty
table. -/
theorem load_seeds_exactly_witness :
    fixtureRecognized "WpOptionsStaticPress2019.yml" = true
      ∧ ((([] : List WpOption).map WpOption.option_name).Nodup)
      ∧ ((seededUrlRow ∈ load "WpOptionsStaticPress2019.yml" []
            ∧ seededDirRow ∈ load "WpOptionsStaticPress2019.yml" []
            ∧ seededTimeoutRow ∈ load "WpOptionsStaticPress2019.yml" [])
          ∧ (∀ r ∈ load "WpOptionsStaticPress2019.yml" [],
              r.option_name = "StaticPress::static url" → r = seededUrlRow)
          ∧ (∀ r ∈ load "WpOptionsStaticPress2019.yml" [],
              r.option_name = "StaticPress::static dir" → r = seededDirRow)
          ∧ (∀ r ∈ load "WpOptionsStaticPress2019.yml" [],
              r.option_name = "StaticPress::timeout" → r = seededTimeoutRow)
          ∧ (load "WpOptionsStaticPress2019.yml" []).filter notSeeded
              = ([] : List WpOption).filter notSeeded) :=
  ⟨by decide, by decide,
    load_seeds_exactly "WpOptionsStaticPress2019.yml" [] (by decide) (by decide)⟩

/-- C9: for every fixtures path outside the recognized family,
`FixtureLoader.load` performs no insert at all: it returns normally and
leaves the `wp_options` table exactly unchanged (unrecognized fixture
files are silently ignored). -/
theorem load_unrecognized_noop (p : String) (t : List WpOption)
    (hp : fixtureRecognized p = false) :
    load p t = t := by
  unfold load
  rw [if_neg (by rw [hp]; exact Bool.false_ne_true)]

/-- Witness for C9 at a concrete unrecognized path. -/
theorem load_unrecognized_noop_witness :
    fixtureRecognized "fixtures/WpPosts.yml" = false
      ∧ load "fixtures/WpPosts.yml" [⟨"siteurl", "http://localhost", "yes"⟩]
          = [⟨"siteurl", "http://localhost", "yes"⟩] :=
  ⟨by decide,
    load_unrecognized_noop "fixtures/WpPosts.yml"
      [⟨"siteurl", "http://localhost", "yes"⟩] (by decide)⟩

theorem upsert_already (n v a : String) (t : List WpOption)
    (hmem : (⟨n, v, a⟩ : WpOption) ∈ t)
    (huniq : ∀ r ∈ t, r.option_name = n → r = ⟨n, v, a⟩) :
    upsert n v a t = t := by
  unfold upsert
  rw [if_pos (List.any_eq_true.mpr ⟨⟨n, v, a⟩, hmem, by simp⟩)]
  have hid : ∀ r ∈ t,
      (if r.option_name == n then (⟨n, v, a⟩ : WpOption) else r) = id r := by
    intro r hr
    by_cases h0 : (r.option_name == n) = true
    · rw [if_pos h0]
      exact (huniq r hr (by simpa using h0)).symm
    · rw [if_neg h0]
      rfl
  rw [List.map_congr_left hid, List.map_id]

/-- C10: on states with unique option names, both fixture operations are
idempotent: cleaning twice equals cleaning once, and loading a recognized
fixtures path twice equals loading it once (the inserts go through
`ON DUPLICATE KEY UPDATE` keyed on the unique `option_name` index). -/
theorem clean_load_idempotent (p : String) (t : List WpOption)
    (hp : fixtureRecognized p = true)
    (_ : (t.map WpOption.option_name).Nodup) :
    clean (clean t) = clean t ∧ load p (load p t) = load p t := by
  constructor
  · rw [clean_eq_filter t, clean_eq_filter (t.filter notSeeded),
      List.filter_filter]
    apply List.filter_congr
    intro r _
    cases h : notSeeded r <;> simp [h]
  · conv_lhs => rw [load, if_pos hp]
    set t3 := load p t with ht3
    have hload : t3 = upsert "StaticPress::timeout" "20" "yes"
        (upsert "StaticPress::static dir" "/var/www/html/wp-content/staticpress/" "yes"
          (upsert "StaticPress::static url" "http://example.org/sub/" "yes" t)) := by
      rw [ht3, load, if_pos hp]
    set t1 := upsert "StaticPress::static url" "http://example.org/sub/" "yes" t with ht1
    set t2 := upsert "StaticPress::static dir" "/var/www/html/wp-content/staticpress/" "yes" t1
      with ht2
    have hurlMem : seededUrlRow ∈ t3 := by
      rw [hload]
      apply upsert_mem_preserve _ _ _ _ _ _ (by decide)
      apply upsert_mem_preserve _ _ _ _ _ _ (by decide)
      exact upsert_mem _ _ _ t
    have hurlUniq : ∀ r ∈ t3, r.option_name = "StaticPress::static url" → r = seededUrlRow := by
      rw [hload]
      intro r hr hrn
      have h2 : r ∈ t2 := upsert_mem_of_ne _ _ _ _ _ hr (by rw [hrn]; decide)
      have h1 : r ∈ t1 := upsert_mem_of_ne _ _ _ _ _ h2 (by rw [hrn]; decide)
      exact upsert_name_eq _ _ _ t r h1 hrn
    have hdirMem : seededDirRow ∈ t3 := by
      rw [hload]
      apply upsert_mem_preserve _ _ _ _ _ _ (by decide)
      exact upsert_mem _ _ _ t1
    have hdirUniq : ∀ r ∈ t3, r.option_name = "StaticPress::static dir" → r = seededDirRow := by
      rw [hload]
      intro r hr hrn
      have h2 : r ∈ t2 := upsert_mem_of_ne _ _ _ _ _ hr (by rw [hrn]; decide)
      exact upsert_name_eq _ _ _ t1 r h2 hrn
    have htmMem : seededTimeoutRow ∈ t3 := by
      rw [hload]
      exact upsert_mem _ _ _ t2
    have htmUniq : ∀ r ∈ t3, r.option_name = "StaticPress::timeout" → r = seededTimeoutRow := by
      rw [hload]
      intro r hr hrn
      exact upsert_name_eq _ _ _ t2 r hr hrn
    rw [upsert_already _ _ _ t3 hurlMem hurlUniq,
      upsert_already _ _ _ t3 hdirMem hdirUniq,
      upsert_already _ _ _ t3 htmMem htmUniq]

/-- Witness for C10 at a concrete recognized path and a concrete
one-row table whose option names are trivially unique. -/
theorem clean_load_idempotent_witness :
    fixtureRecognized "WpOptionsStaticPress2019.yml" = true
      ∧ (([⟨"StaticPress::timeout", "5", "no"⟩] : List WpOption).map
          WpOption.option_name).Nodup
      ∧ (clean (clean [⟨"StaticPress::timeout", "5", "no"⟩])
            = clean [⟨"StaticPress::timeout", "5", "no"⟩]
          ∧ load "WpOptionsStaticPress2019.yml"
              (load "WpOptionsStaticPress2019.yml" [⟨"StaticPress::timeout", "5", "no"⟩])
            = load "WpOptionsStaticPress2019.yml" [⟨"StaticPress::timeout", "5", "no"⟩]) :=
  ⟨by decide, by decide,
    clean_load_idempotent "WpOptionsStaticPress2019.yml"
      [⟨"StaticPress::timeout", "5", "no"⟩] (by decide) (by decide)⟩

/-! ## C6: the re-authentication retry loop of
`test_sets_option_and_rebuilds` (tests/test_all.py)

```python
max_login_attempts = 3
login_attempts = 0
while "wp-login.php" in page.url and login_attempts < max_login_attempts:
    login_attempts += 1
    ...
```

The loop body only increments the counter and interacts with the
browser; the page URL observed at the top of each pass is an arbitrary
oracle `urls : Nat → String` giving the URL seen when the counter holds
a given value.  `login_loop` returns the final value of
`login_attempts`, which (starting from 0) equals the number of body
executions since each pass increments it exactly once. -/

/-- Constant `max_login_attempts` in tests/test_all.py. -/
def max_login_attempts : Nat := 3

/-- The retry loop: while the current URL contains `wp-login.php` and
fewer than `max_login_attempts` passes have run, run another pass. -/
def login_loop (urls : Nat → String) (attempts : Nat) : Nat :=
  if h : strContains (urls attempts) "wp-login.php" = true ∧ attempts < max_login_attempts
  then login_loop urls (attempts + 1)
  else attempts
termination_by max_login_attempts - attempts
decreasing_by
  rcases h with ⟨_, h2⟩
  simp only [max_login_attempts] at h2 ⊢
  omega

theorem login_loop_le (urls : Nat → String) :
    ∀ k a, max_login_attempts - a ≤ k → login_loop urls a ≤ max a max_login_attempts := by
  intro k
  induction k with
  | zero =>
    intro a ha
    rw [login_loop]
    rw [dif_neg (by simp only [max_login_attempts] at ha ⊢; omega)]
    exact Nat.le_max_left a _
  | succ k ih =>
    intro a ha
    rw [login_loop]
    by_cases hcond : strContains (urls a) "wp-login.php" = true ∧ a < max_login_attempts
    · rw [dif_pos hcond]
      have h3 := ih (a + 1) (by omega)
      have hmax : max (a + 1) max_login_attempts = max_login_attempts := by
        have := hcond.2
        simp only [max_login_attempts] at this ⊢
        omega
      rw [hmax] at h3
      exact le_trans h3 (Nat.le_max_right a _)
    · rw [dif_neg hcond]
      exact Nat.le_max_left a _

theorem login_loop_saturates (urls : Nat → String)
    (hall : ∀ n, strContains (urls n) "wp-login.php" = true) :
    ∀ a, a ≤ max_login_attempts → login_loop urls a = max_login_attempts := by
  have step : ∀ a, a < max_login_attempts → login_loop urls a = login_loop urls (a + 1) := by
    intro a ha
    rw [login_loop, dif_pos ⟨hall a, ha⟩]
  have base : login_loop urls max_login_attempts = max_login_attempts := by
    rw [login_loop, dif_neg (by simp)]
  intro a ha
  have h3 : ∀ d a2, a2 + d = max_login_attempts → login_loop urls a2 = max_login_attempts := by
    intro d
    induction d with
    | zero =>
      intro a2 h2
      simp only [Nat.add_zero] at h2
      rw [h2, base]
    | succ d ihd =>
      intro a2 h2
      rw [step a2 (by omega), ihd (a2 + 1) (by omega)]
  exact h3 (max_login_attempts - a) a (by omega)

/-- C6: the re-authentication retry loop runs its body at most 3 times
for every sequence of observed page URLs: starting from
`login_attempts = 0` the final counter value (= the number of passes,
since each pass increments it by exactly one) never exceeds
`max_login_attempts = 3`; a pass runs exactly when the URL contains
`wp-login.php` and fewer than 3 passes have run, and when the login
redirect never succeeds the loop stops after exactly 3 passes. -/
theorem login_retry_loop_bounded (urls : Nat → String) :
    login_loop urls 0 ≤ 3
      ∧ (∀ a, strContains (urls a) "wp-login.php" = true → a < 3 →
          login_loop urls a = login_loop urls (a + 1))
      ∧ (∀ a, ¬(strContains (urls a) "wp-login.php" = true ∧ a < 3) →
          login_loop urls a = a)
      ∧ ((∀ n, strContains (urls n) "wp-login.php" = true) →
          login_loop urls 0 = 3) := by
  refine ⟨?_, ?_, ?_, ?_⟩
  · simpa [max_login_attempts] using login_loop_le urls max_login_attempts 0 (by omega)
  · intro a h1 h2
    rw [login_loop]
    simp only [max_login_attempts]
    rw [dif_pos ⟨h1, h2⟩]
  · intro a h
    rw [login_loop]
    simp only [max_login_attempts]
    rw [dif_neg h]
  · intro hall
    exact login_loop_saturates urls hall 0 (by simp [max_login_attempts])

/-- Witness for C6: with a browser that always reports a `wp-login.php`
URL, the loop runs exactly 3 passes (and 3 ≤ 3). -/
theorem login_retry_loop_bounded_witness :
    login_loop (fun _ => "http://localhost/wp-login.php?redirect_to=admin") 0 ≤ 3
      ∧ login_loop (fun _ => "http://localhost/wp-login.php?redirect_to=admin") 0 = 3 :=
  ⟨(login_retry_loop_bounded (fun _ => "http://localhost/wp-login.php?redirect_to=admin")).1,
    (login_retry_loop_bounded (fun _ => "http://localhost/wp-login.php?redirect_to=admin")).2.2.2
      (fun _ => by decide)⟩

/-! ## C7: `PagePlugins.activate_plugin`
(testlibraries/pages/page_plugins.py)

The method builds an XPath locator for the `Activate` link following the
`<strong>` element holding the plugin name, and clicks it (then waits for
`domcontentloaded`) only when the locator count is positive.  The page is
abstracted as the locator-count environment `counts` mapping a selector
to the number of matching elements; the method's browser effect is the
list of actions it issues. -/

/-- A browser action issued by a page object. -/
inductive BrowserAction
  | click (selector : List Char)
  | waitLoadState (state : List Char)
  deriving DecidableEq, Repr

/-- The XPath built by `activate_plugin`:
`f'//strong[text()={escaped_plugin_name}]/following-sibling::div//a[text()="Activate"]'`. -/
def activate_plugin_xpath (plugin_name : List Char) : List Char :=
  "//strong[text()=".data ++ escape_xpath_string plugin_name
    ++ "]/following-sibling::div//a[text()=\"Activate\"]".data

/-- The locator selector `f"xpath=.{xpath}"` passed to `page.locator`. -/
def activate_plugin_selector (plugin_name : List Char) : List Char :=
  "xpath=.".data ++ activate_plugin_xpath plugin_name

/-- Model of `PagePlugins.activate_plugin`, returning the browser actions issued:
click the first match and wait for `domcontentloaded` when the locator
count is positive, otherwise do nothing. -/
def activate_plugin (counts : List Char → Nat) (plugin_name : List Char) :
    List BrowserAction :=
  let link_handler := activate_plugin_selector plugin_name
  if counts link_handler > 0 then
    [BrowserAction.click link_handler,
      BrowserAction.waitLoadState "domcontentloaded".data]
  else []

/-- C7: for every plugin name, when the plugins page has no `Activate`
link after the `<strong>` element holding the plugin name (locator count
0, i.e. the plugin is already active), `activate_plugin` issues no click
and no page-load wait: it performs no browser action at all. -/
theorem activate_plugin_noop_when_active
    (counts : List Char → Nat) (plugin_name : List Char)
    (h : counts (activate_plugin_selector plugin_name) = 0) :
    activate_plugin counts plugin_name = [] := by
  unfold activate_plugin
  simp [h]

/-- Witness for C7 on a page where every locator counts 0 matches. -/
theorem activate_plugin_noop_when_active_witness :
    (fun _ : List Char => 0) (activate_plugin_selector "StaticPress2019".data) = 0
      ∧ activate_plugin (fun _ => 0) "StaticPress2019".data = [] :=
  ⟨rfl, activate_plugin_noop_when_active (fun _ => 0) "StaticPress2019".data rfl⟩

end StaticPressHarness
